import Mathlib

/-!
Shallow embedding of the core data pipeline of the Trending-YouTube-Video-Scraper
repository: the duration codec, record normalizer, filter/sort engine and batch
pipeline of `title-search-duration-filter/data_processor.py`, and the pagination
accumulator and detail batcher of `search_handler.py`.

Conventions of the embedding:
* Python `int` values are modelled as `Int` (counts, thresholds) or `Nat`
  (durations, which the source only ever produces as non-negative sums).
* Python code that can raise is modelled with `Option`: `none` is a raised
  exception, `some` a normal return.
* Python dictionaries with a dynamic key set (the inputs of `sort_videos`) are
  modelled as association lists over a small universe `PyVal` of Python values;
  Python's partial comparison operator (which raises `TypeError` on mixed
  types) is modelled by the `Option`-valued `pyLt`.
-/

/-- A Python value as it occurs in the processed-video dictionaries produced by
`DataProcessor.extract_video_info`: `None`, booleans, integers, strings, lists
of strings (the `tags_list` field) and the nested thumbnail dictionary
(`{'url': ..., 'width': ..., 'height': ...}`). -/
inductive PyVal where
  | pnone
  | pbool (b : Bool)
  | pint (n : Int)
  | pstr (s : String)
  | plistS (xs : List String)
  | pthumb (url : String) (width height : Int)
deriving DecidableEq

/-- A Python dict with string keys, as an association list (first hit wins). -/
def PyDict := List (String × PyVal)
deriving DecidableEq

/-- `d.get(k, default)` on a Python dict. -/
def dictGet (d : PyDict) (k : String) (default : PyVal) : PyVal :=
  match d with
  | [] => default
  | (k', v) :: rest => if k' = k then v else dictGet rest k default

/-- `k in d` on a Python dict. -/
def dictHasKey (d : PyDict) (k : String) : Bool :=
  match d with
  | [] => false
  | (k', _) :: rest => k' = k || dictHasKey rest k

/-- Numeric view of a `PyVal`: Python compares `bool` with `int` by treating
`True`/`False` as `1`/`0`. -/
def pyNum : PyVal → Option Int
  | .pbool b => some (if b then 1 else 0)
  | .pint n => some n
  | _ => none

/-- Lexicographic `<` on Python lists of strings. -/
def listStrLt : List String → List String → Bool
  | [], [] => false
  | [], _ :: _ => true
  | _ :: _, [] => false
  | a :: as, b :: bs => if a < b then true else if b < a then false else listStrLt as bs

/-- Python's `<` between two values: defined within the numeric tower and
between two strings or two lists, and a `TypeError` (`none`) otherwise —
in particular `None` and dicts compare with nothing, not even themselves. -/
def pyLt (a b : PyVal) : Option Bool :=
  match pyNum a, pyNum b with
  | some x, some y => some (decide (x < y))
  | _, _ =>
    match a, b with
    | .pstr x, .pstr y => some (decide (x < y))
    | .plistS x, .plistS y => some (listStrLt x y)
    | _, _ => none

/-- All sort keys are mutually comparable: exactly the condition under which
CPython's `sorted` cannot raise `TypeError` for these value classes. -/
def allComparable (keys : List PyVal) : Bool :=
  keys.all fun a => keys.all fun b => (pyLt a b).isSome

/-- `precedes d ka kb`: a record with key `ka` must be placed strictly before a
record with key `kb`; ascending (`d = false`) when `ka < kb`, descending when
`kb < ka`. An undefined comparison counts as `false` (comparability is checked
separately). -/
def precedes (d : Bool) (ka kb : PyVal) : Bool :=
  if d then (pyLt kb ka).getD false else (pyLt ka kb).getD false

/-- Stable insertion: `x` (which occurs later in the input than everything in
the list) goes after exactly those `y` that strictly precede it. -/
def insertK (key : α → PyVal) (d : Bool) (x : α) : List α → List α
  | [] => [x]
  | y :: ys => if precedes d (key y) (key x) then y :: insertK key d x ys else x :: y :: ys

/-- Stable sort by key, the semantics of Python's `sorted(..., key=..., reverse=d)`
on fully comparable keys. -/
def insSortK (key : α → PyVal) (d : Bool) : List α → List α
  | [] => []
  | x :: xs => insertK key d x (insSortK key d xs)

/-- `sorted(l, key=key, reverse=d)`: raises (`none`) iff two keys are
incomparable, otherwise a stable sort. -/
def pySortByKey (key : α → PyVal) (d : Bool) (l : List α) : Option (List α) :=
  if allComparable (l.map key) then some (insSortK key d l) else none

/-- `DataProcessor.sort_videos(videos, sort_by, descending)`:
`sorted(videos, key=lambda x: x.get(sort_by, 0), reverse=descending)`. -/
def sort_videos (videos : List PyDict) (sort_by : String) (descending : Bool) :
    Option (List PyDict) :=
  pySortByKey (fun v => dictGet v sort_by (.pint 0)) descending videos

/-! ## Duration codec (`DataProcessor.parse_duration` and friends) -/

/-- Value of a run of decimal digit characters, most significant first:
Python's `int(...)` applied to the digits captured by the regex. -/
def digitsVal (ds : List Char) : Nat :=
  ds.foldl (fun a c => a * 10 + (c.toNat - 48)) 0

/-- `re.search(r'(\d+)' + desig, s)` followed by `int(match.group(1))` for a
single non-digit designator character `desig` (`'H'`, `'M'` or `'S'`): the
leftmost match of one-or-more digits directly followed by `desig`, with the
greedy `\d+` capturing the maximal digit run ending at that designator.
The first argument list accumulates (reversed) the digit run currently open. -/
def searchIntBefore (desig : Char) : List Char → List Char → Option Nat
  | _, [] => none
  | run, c :: rest =>
    if c = desig then
      if run.isEmpty then searchIntBefore desig [] rest
      else some (digitsVal run.reverse)
    else if c.isDigit then searchIntBefore desig (c :: run) rest
    else searchIntBefore desig [] rest

/-- `duration_str.replace('PT', '')`: removes every (non-overlapping, scanned
left to right) occurrence of the two-character substring `"PT"`. -/
def removePT : List Char → List Char
  | [] => []
  | [c] => [c]
  | a :: b :: resttail =>
    if a = 'P' ∧ b = 'T' then removePT resttail else a :: removePT (b :: resttail)

/-- `DataProcessor.parse_duration(duration_str)`: `0` for empty or `'N/A'`
input, otherwise strip `"PT"` and extract the hour/minute/second components
with the three regexes, each defaulting to `0` when absent. -/
def parse_duration (duration_str : String) : Nat :=
  if duration_str = "" ∨ duration_str = "N/A" then 0
  else
    let t := removePT duration_str.data
    let hours := (searchIntBefore 'H' [] t).getD 0
    let minutes := (searchIntBefore 'M' [] t).getD 0
    let seconds := (searchIntBefore 'S' [] t).getD 0
    hours * 3600 + minutes * 60 + seconds

/-- `f"{n:02d}"` for a non-negative component. -/
def pad2 (n : Nat) : String :=
  if n < 10 then "0" ++ toString n else toString n

/-- `DataProcessor.format_duration(seconds)`. -/
def format_duration (seconds : Nat) : String :=
  if seconds = 0 then "0:00"
  else
    let hours := seconds / 3600
    let minutes := seconds % 3600 / 60
    let secs := seconds % 60
    if hours > 0 then toString hours ++ ":" ++ pad2 minutes ++ ":" ++ pad2 secs
    else toString minutes ++ ":" ++ pad2 secs

/-- `DataProcessor.is_youtube_short(duration_seconds)`: `0 < d <= 60`. -/
def is_youtube_short (duration_seconds : Nat) : Bool :=
  decide (0 < duration_seconds) && decide (duration_seconds ≤ 60)

/-- `DataProcessor.get_video_type(duration_seconds)`. -/
def get_video_type (duration_seconds : Nat) : String :=
  if duration_seconds = 0 then "Unknown"
  else if duration_seconds ≤ 60 then "Short"
  else if duration_seconds ≤ 240 then "Short Video"
  else if duration_seconds ≤ 600 then "Medium Video"
  else if duration_seconds ≤ 1200 then "Long Video"
  else "Very Long Video"

/-! ## Record normalizer (`DataProcessor.extract_video_info`) -/

/-- The `'high'` entry of the `'thumbnails'` sub-dict of a snippet. -/
structure RawThumb where
  url : Option String
  width : Option Int
  height : Option Int
deriving DecidableEq

/-- The `'thumbnails'` sub-dict of a snippet (only the `'high'` key is read). -/
structure RawThumbs where
  high : Option RawThumb
deriving DecidableEq

/-- The `'snippet'` section of a raw API item; every key may be absent. -/
structure Snippet where
  title : Option String
  channelTitle : Option String
  channelId : Option String
  publishedAt : Option String
  description : Option String
  tags : Option (List String)
  thumbnails : Option RawThumbs
deriving DecidableEq

/-- The `'statistics'` section: the API returns the counts as decimal strings. -/
structure Statistics where
  viewCount : Option String
  likeCount : Option String
  commentCount : Option String
deriving DecidableEq

/-- The `'contentDetails'` section. -/
structure ContentDetails where
  duration : Option String
deriving DecidableEq

/-- One raw item as consumed by the normalizer: an identifier and three
optional sections. -/
structure RawItem where
  id : Option String
  snippet : Option Snippet
  statistics : Option Statistics
  contentDetails : Option ContentDetails
deriving DecidableEq

/-- The flat processed-video record: the dict literal returned by
`extract_video_info`, with one typed field per key. -/
structure Record where
  video_id : Option String
  title : String
  channel : String
  channel_id : String
  published_at : String
  description : String
  description_short : String
  view_count : Int
  like_count : Int
  comment_count : Int
  duration : String
  duration_seconds : Nat
  is_short : Bool
  video_type : String
  tags : String
  tags_list : List String
  thumbnail_url : String
  thumbnail_object : String × Int × Int
  url : String
deriving DecidableEq

/-- Nonempty run of decimal digits to its value, `none` otherwise. -/
def parseDigits (ds : List Char) : Option Nat :=
  if !ds.isEmpty && ds.all Char.isDigit then some (digitsVal ds) else none

/-- Surrounding whitespace stripped from a character list, as Python's
`str.strip()` does before `int` parses. -/
def stripWS (l : List Char) : List Char :=
  ((l.dropWhile Char.isWhitespace).reverse.dropWhile Char.isWhitespace).reverse

/-- Python's `int(s)` on a string: optional surrounding whitespace, an optional
sign, then decimal digits; anything else raises `ValueError` (`none`).
(Underscore digit separators, which CPython also accepts, are not modelled;
no input in this pipeline contains them.) -/
def pyIntStr (s : String) : Option Int :=
  match stripWS s.data with
  | '-' :: ds => (parseDigits ds).map (fun n => -(n : Int))
  | '+' :: ds => (parseDigits ds).map (fun n => (n : Int))
  | ds => (parseDigits ds).map (fun n => (n : Int))

/-- `int(statistics.get(key, 0))`: an absent count is the integer `0` (and
`int(0)` succeeds); a present count is a string fed to `int`. -/
def pyIntOfField : Option String → Option Int
  | none => some 0
  | some s => pyIntStr s

/-- `f"...{video.get('id')}"`: Python interpolates `None` as the text `None`. -/
def pyInterpOpt : Option String → String
  | none => "None"
  | some s => s

/-- `DataProcessor.extract_video_info(video)`: produces the flat record;
`none` models the `ValueError` raised by `int(...)` on a non-numeric count. -/
def extract_video_info (video : RawItem) : Option Record := do
  let snippet := video.snippet.getD ⟨none, none, none, none, none, none, none⟩
  let statistics := video.statistics.getD ⟨none, none, none⟩
  let content_details := video.contentDetails.getD ⟨none⟩
  let view_count ← pyIntOfField statistics.viewCount
  let like_count ← pyIntOfField statistics.likeCount
  let comment_count ← pyIntOfField statistics.commentCount
  let duration_iso := content_details.duration.getD "N/A"
  let duration_seconds := parse_duration duration_iso
  let duration_formatted := format_duration duration_seconds
  let is_short := is_youtube_short duration_seconds
  let video_type := get_video_type duration_seconds
  let tags := snippet.tags.getD []
  let tags_string := if !tags.isEmpty then String.intercalate ", " tags else "No tags"
  let thumbnail_high := (snippet.thumbnails.getD ⟨none⟩).high.getD ⟨none, none, none⟩
  let thumb_url := thumbnail_high.url.getD ""
  let thumbnail_info : String × Int × Int :=
    (thumb_url, thumbnail_high.width.getD 0, thumbnail_high.height.getD 0)
  let thumbnail_string := if thumb_url ≠ "" then thumb_url else "No thumbnail"
  let full_description := snippet.description.getD ""
  pure {
    video_id := video.id
    title := snippet.title.getD ""
    channel := snippet.channelTitle.getD ""
    channel_id := snippet.channelId.getD ""
    published_at := snippet.publishedAt.getD ""
    description := full_description
    description_short := ⟨full_description.data.take 500⟩
    view_count := view_count
    like_count := like_count
    comment_count := comment_count
    duration := duration_formatted
    duration_seconds := duration_seconds
    is_short := is_short
    video_type := video_type
    tags := tags_string
    tags_list := tags
    thumbnail_url := thumbnail_string
    thumbnail_object := thumbnail_info
    url := "https://www.youtube.com/watch?v=" ++ pyInterpOpt video.id }

/-! ## Filter engine and batch pipeline -/

/-- Does `hay` start with `needle`? (character lists) -/
def startsWithL : List Char → List Char → Bool
  | [], _ => true
  | _ :: _, [] => false
  | a :: as, b :: bs => a = b && startsWithL as bs

/-- Python's `needle in hay` on strings (character lists): contiguous
substring occurrence, the empty needle always matching. -/
def containsL (needle : List Char) : List Char → Bool
  | [] => needle.isEmpty
  | c :: rest => startsWithL needle (c :: rest) || containsL needle rest

/-- Python's `needle in hay` on `String`. -/
def strIn (needle hay : String) : Bool :=
  containsL needle.data hay.data

/-- Python's `str.lower()`. Only ASCII case mapping is modelled; the spec
explicitly allows any reasonable case-folding semantics here. -/
def lowerStr (s : String) : String :=
  ⟨s.data.map Char.toLower⟩

/-- `DataProcessor.filter_by_views(videos, min_views)`:
keep records with `view_count >= min_views` (input order preserved). -/
def filter_by_views (videos : List Record) (min_views : Int) : List Record :=
  videos.filter fun v => min_views ≤ v.view_count

/-- `DataProcessor.filter_by_keywords_in_title(videos, keywords, case_sensitive)`:
keep a record iff some keyword occurs in its title, both sides lowercased
when `case_sensitive` is false. -/
def filter_by_keywords_in_title (videos : List Record) (keywords : List String)
    (case_sensitive : Bool) : List Record :=
  videos.filter fun v =>
    let title := if case_sensitive then v.title else lowerStr v.title
    let kws := if case_sensitive then keywords else keywords.map lowerStr
    kws.any fun keyword => strIn keyword title

/-- The dict literal returned by `extract_video_info`, keys in source order:
lets the record-level pipeline reuse the dict-level sort key lookup. -/
def recordToDict (r : Record) : PyDict :=
  [("video_id", match r.video_id with | none => .pnone | some s => .pstr s),
   ("title", .pstr r.title),
   ("channel", .pstr r.channel),
   ("channel_id", .pstr r.channel_id),
   ("published_at", .pstr r.published_at),
   ("description", .pstr r.description),
   ("description_short", .pstr r.description_short),
   ("view_count", .pint r.view_count),
   ("like_count", .pint r.like_count),
   ("comment_count", .pint r.comment_count),
   ("duration", .pstr r.duration),
   ("duration_seconds", .pint r.duration_seconds),
   ("is_short", .pbool r.is_short),
   ("video_type", .pstr r.video_type),
   ("tags", .pstr r.tags),
   ("tags_list", .plistS r.tags_list),
   ("thumbnail_url", .pstr r.thumbnail_url),
   ("thumbnail_object", .pthumb r.thumbnail_object.1 r.thumbnail_object.2.1 r.thumbnail_object.2.2),
   ("url", .pstr r.url)]

/-- `DataProcessor.sort_videos` applied to processed-video records: the same
`sorted(..., key=lambda x: x.get(sort_by, 0), reverse=descending)` engine,
looking the key up in the record's dict form. -/
def sortRecords (videos : List Record) (sort_by : String) (descending : Bool) :
    Option (List Record) :=
  pySortByKey (fun r => dictGet (recordToDict r) sort_by (.pint 0)) descending videos

/-- `DataProcessor.process_video_batch(raw_videos, min_views, filter_keywords)`:
normalize every item, filter by views, filter by keywords only when the
(optional) keyword list is truthy — `None` and `[]` both skip — then sort by
`view_count` descending. `none` models an exception escaping the batch. -/
def process_video_batch (raw_videos : List RawItem) (min_views : Int)
    (filter_keywords : Option (List String)) : Option (List Record) := do
  let processed ← raw_videos.mapM extract_video_info
  let processed := filter_by_views processed min_views
  let processed :=
    match filter_keywords with
    | some ks => if ks.isEmpty then processed else filter_by_keywords_in_title processed ks false
    | none => processed
  sortRecords processed "view_count" true

/-! ## Pagination accumulator (`SearchHandler.search_videos_with_keywords`) -/

/-- Outcome of one injected page fetch: a successful response carries the
page's items and an optional continuation token; `err` is a raised exception
caught by the `except` clause. -/
inductive FetchResult (α : Type) where
  | ok (items : List α) (nextPageToken : Option String)
  | err
deriving DecidableEq

/-- The `while` loop of `SearchHandler.search_videos_with_keywords`, with the
injected page-fetch capability receiving the query joined from the keywords,
the requested page size `min(50, max_total_results - len(all_videos))` and the
carried continuation token. `fuel` bounds the number of iterations (the source
loop has no bound; every claim holds for any sufficient fuel). Returns the
accumulated items together with the log of `(page_size, token)` requests
actually issued. -/
def search_videos_with_keywords (fetch : String → Int → Option String → FetchResult α)
    (keywords : List String) (max_total_results : Int) :
    Nat → List α → Option String → List α × List (Int × Option String)
  | 0, all_videos, _ => (all_videos, [])
  | fuel + 1, all_videos, next_page_token =>
    if (all_videos.length : Int) < max_total_results then
      let req := min 50 (max_total_results - all_videos.length)
      match fetch (String.intercalate " " keywords) req next_page_token with
      | .err => (all_videos, [(req, next_page_token)])
      | .ok items none => (all_videos ++ items, [(req, next_page_token)])
      | .ok items (some t) =>
        let rest := search_videos_with_keywords fetch keywords max_total_results fuel
          (all_videos ++ items) (some t)
        (rest.1, (req, next_page_token) :: rest.2)
    else (all_videos, [])

/-! ## Detail batcher (`SearchHandler.fetch_video_statistics`) -/

/-- A search-result stub: `item['id']['videoId']`. -/
structure Stub where
  videoId : String
deriving DecidableEq

/-- Consecutive chunks of at most 50 elements (`video_items[i:i+50]` for
`i in range(0, len(video_items), 50)`), fuelled by the list length so the
kernel can evaluate it. -/
def chunksGo : Nat → List α → List (List α)
  | 0, _ => []
  | _, [] => []
  | fuel + 1, x :: rest => ((x :: rest).take 50) :: chunksGo fuel ((x :: rest).drop 50)

/-- The batch decomposition used by `fetch_video_statistics`. -/
def chunks50 (l : List α) : List (List α) :=
  chunksGo l.length l

/-- The per-batch body of `fetch_video_statistics` folded over the batches:
each batch issues one detail-fetch call with the batch's identifiers; a
successful call's items are appended, a failed one (`none`) is skipped and the
remaining batches still run. Returns the enriched items together with the log
of identifier batches issued. -/
def fetchStatsGo (getDetails : List String → Option (List α)) :
    List (List Stub) → List α × List (List String)
  | [] => ([], [])
  | batch :: batches =>
    let video_ids := batch.map Stub.videoId
    let rest := fetchStatsGo getDetails batches
    match getDetails video_ids with
    | some details => (details ++ rest.1, video_ids :: rest.2)
    | none => (rest.1, video_ids :: rest.2)

/-- `SearchHandler.fetch_video_statistics(video_items)` with the detail-fetch
capability injected. -/
def fetch_video_statistics (getDetails : List String → Option (List α))
    (video_items : List Stub) : List α × List (List String) :=
  fetchStatsGo getDetails (chunks50 video_items)

/-- Decimal numeral of `n`, most significant digit first, fuelled so the
recursion is structural (`fuel > n` suffices). -/
def natDigitsGo : Nat → Nat → List Char
  | 0, _ => []
  | fuel + 1, n =>
    if n < 10 then [Nat.digitChar n]
    else natDigitsGo fuel (n / 10) ++ [Nat.digitChar (n % 10)]

/-- The decimal numeral of `n` as a character list. -/
def natDigits (n : Nat) : List Char :=
  natDigitsGo (n + 1) n

/-- The decimal numeral of `n` as a string. -/
def natStr (n : Nat) : String :=
  ⟨natDigits n⟩

/-- The well-formed duration token `PT{h}H{m}M{s}S` with decimal components. -/
def mkTokenHMS (h m s : Nat) : String :=
  ⟨'P' :: 'T' :: (natDigits h ++ 'H' :: (natDigits m ++ 'M' :: (natDigits s ++ ['S'])))⟩

/-- The token `PT{m}M{s}S` (hour designator absent). -/
def mkTokenMS (m s : Nat) : String :=
  ⟨'P' :: 'T' :: (natDigits m ++ 'M' :: (natDigits s ++ ['S']))⟩

/-- The token `PT{h}H{s}S` (minute designator absent). -/
def mkTokenHS (h s : Nat) : String :=
  ⟨'P' :: 'T' :: (natDigits h ++ 'H' :: (natDigits s ++ ['S']))⟩

/-- The token `PT{h}H{m}M` (second designator absent). -/
def mkTokenHM (h m : Nat) : String :=
  ⟨'P' :: 'T' :: (natDigits h ++ 'H' :: (natDigits m ++ ['M']))⟩

/-- The token `PT{s}S` (only seconds). -/
def mkTokenS (s : Nat) : String :=
  ⟨'P' :: 'T' :: (natDigits s ++ ['S'])⟩

/-! ## Concrete scenario inputs -/

/-- Page-fetch capability of the pagination scenario: first call returns 50
stubs and token `T1`, the `T1` call returns 30 stubs and no token, anything
else fails. -/
def pagesFetch : String → Int → Option String → FetchResult Nat := fun _ _ tok =>
  match tok with
  | none => .ok (List.replicate 50 0) (some "T1")
  | some t => if t = "T1" then .ok (List.replicate 30 1) none else .err

/-- 120 search stubs with distinct identifiers. -/
def stubs120 : List Stub :=
  (List.range 120).map fun i => ⟨toString i⟩

/-- Raw items of the batch-pipeline scenario: view counts 5000, 20000, 15000. -/
def pipelineRaw : List RawItem :=
  [⟨some "a", none, some ⟨some "5000", none, none⟩, none⟩,
   ⟨some "b", none, some ⟨some "20000", none, none⟩, none⟩,
   ⟨some "c", none, some ⟨some "15000", none, none⟩, none⟩]

/-- A processed record with the given title and all other fields at the
normalizer's defaults. -/
def recTitled (t : String) : Record :=
  ⟨none, t, "", "", "", "", "", 0, 0, 0, "0:00", 0, false, "Unknown", "No tags", [],
   "No thumbnail", ("", 0, 0), "https://www.youtube.com/watch?v=None"⟩

/-- The integer carried by a `PyVal`, `0` for non-integers. -/
def pyToInt : PyVal → Int
  | .pint n => n
  | _ => 0


/-! ## Lemmas about the sort engine -/

theorem listStrLt_self : ∀ xs : List String, listStrLt xs xs = false
  | [] => rfl
  | a :: as => by simp [listStrLt, lt_self_iff_false, listStrLt_self as]

/-- No value strictly precedes a value with the same key. -/
theorem precedes_self (d : Bool) (k : PyVal) : precedes d k k = false := by
  cases k <;> cases d <;>
    simp [precedes, pyLt, pyNum, lt_self_iff_false, listStrLt_self]

theorem insertK_perm (key : α → PyVal) (d : Bool) (x : α) :
    ∀ l : List α, (insertK key d x l).Perm (x :: l)
  | [] => List.Perm.refl _
  | y :: ys => by
    by_cases h : precedes d (key y) (key x) = true
    · simp only [insertK, h, if_true]
      exact ((insertK_perm key d x ys).cons y).trans (List.Perm.swap x y ys)
    · simp only [insertK, h, if_false, Bool.false_eq_true]
      exact List.Perm.refl _

theorem insSortK_perm (key : α → PyVal) (d : Bool) :
    ∀ l : List α, (insSortK key d l).Perm l
  | [] => List.Perm.refl _
  | x :: xs =>
    (insertK_perm key d x (insSortK key d xs)).trans ((insSortK_perm key d xs).cons x)

theorem mem_insertK {key : α → PyVal} {d : Bool} {x z : α} {l : List α}
    (h : z ∈ insertK key d x l) : z = x ∨ z ∈ l := by
  have := (insertK_perm key d x l).mem_iff.mp h
  simpa using this

/-- Filtering on one key value commutes with stable insertion: the inserted
element lands after every element it skipped, and those all have a different
key. -/
theorem filter_insertK (key : α → PyVal) (d : Bool) (x : α) (k : PyVal) :
    ∀ l : List α, (insertK key d x l).filter (fun a => decide (key a = k)) =
      if key x = k then x :: l.filter (fun a => decide (key a = k))
      else l.filter (fun a => decide (key a = k))
  | [] => by by_cases h : key x = k <;> simp [insertK, List.filter, h]
  | y :: ys => by
    by_cases hp : precedes d (key y) (key x) = true
    · have hyx : key y ≠ key x := by
        intro he
        rw [he, precedes_self] at hp
        exact Bool.false_ne_true hp
      by_cases hxk : key x = k
      · have hyk : ¬ key y = k := fun he => hyx (he.trans hxk.symm)
        rw [if_pos hxk]
        simp only [insertK, hp, if_true]
        simp [List.filter, hyk, filter_insertK key d x k ys, hxk]
      · simp only [insertK, hp, if_true, hxk, if_neg]
        by_cases hyk : key y = k <;>
          simp [List.filter, hyk, filter_insertK key d x k ys, hxk]
    · simp only [insertK, hp, if_false, Bool.false_eq_true]
      by_cases hxk : key x = k <;> by_cases hyk : key y = k <;>
        simp [List.filter, hxk, hyk]

/-- Stability of the sort: the records carrying any fixed key value appear in
the output in exactly their input order. -/
theorem filter_insSortK (key : α → PyVal) (d : Bool) (k : PyVal) :
    ∀ l : List α, (insSortK key d l).filter (fun a => decide (key a = k)) =
      l.filter (fun a => decide (key a = k))
  | [] => rfl
  | x :: xs => by
    rw [insSortK, filter_insertK]
    by_cases h : key x = k <;>
      simp [h, filter_insSortK key d k xs, List.filter]

theorem precedes_pint (d : Bool) (x y : Int) :
    precedes d (.pint x) (.pint y) = if d then decide (y < x) else decide (x < y) := by
  cases d <;> rfl

/-- Inserting into a list sorted on integer keys keeps it sorted. -/
theorem pairwise_insertK_int (f : α → Int) (key : α → PyVal) (d : Bool) (x : α) :
    ∀ l : List α, key x = .pint (f x) → (∀ a ∈ l, key a = .pint (f a)) →
      l.Pairwise (fun a b => if d then f b ≤ f a else f a ≤ f b) →
      (insertK key d x l).Pairwise (fun a b => if d then f b ≤ f a else f a ≤ f b)
  | [], _, _, _ => by simp [insertK]
  | y :: ys, hx, hall, hpw => by
    have hy : key y = .pint (f y) := hall y (List.mem_cons_self y ys)
    have hys : ∀ a ∈ ys, key a = .pint (f a) := fun a ha => hall a (List.mem_cons_of_mem y ha)
    rw [List.pairwise_cons] at hpw
    obtain ⟨hyall, hpw'⟩ := hpw
    by_cases hp : precedes d (key y) (key x) = true
    · have hyx : if d then f x ≤ f y else f y ≤ f x := by
        rw [hy, hx, precedes_pint] at hp
        cases d <;> simp_all <;> omega
      simp only [insertK, hp, if_true]
      rw [List.pairwise_cons]
      refine ⟨fun z hz => ?_, pairwise_insertK_int f key d x ys hx hys hpw'⟩
      rcases mem_insertK hz with rfl | hz'
      · cases d <;> simp_all
      · exact hyall z hz'
    · have hxy : if d then f y ≤ f x else f x ≤ f y := by
        rw [hy, hx, precedes_pint] at hp
        cases d <;> simp_all
      simp only [insertK, hp, if_false, Bool.false_eq_true]
      rw [List.pairwise_cons]
      refine ⟨fun z hz => ?_, by rw [List.pairwise_cons]; exact ⟨hyall, hpw'⟩⟩
      rcases List.mem_cons.mp hz with rfl | hz'
      · exact hxy
      · have hzy : if d then f z ≤ f y else f y ≤ f z := hyall z hz'
        cases d
        · have h1 : f x ≤ f y := by simpa using hxy
          have h2 : f y ≤ f z := by simpa using hzy
          simpa using h1.trans h2
        · have h1 : f y ≤ f x := by simpa using hxy
          have h2 : f z ≤ f y := by simpa using hzy
          simpa using h2.trans h1

/-- The stable sort on integer keys is sorted (descending when `d`). -/
theorem pairwise_insSortK_int (f : α → Int) (key : α → PyVal) (d : Bool) :
    ∀ l : List α, (∀ a ∈ l, key a = .pint (f a)) →
      (insSortK key d l).Pairwise (fun a b => if d then f b ≤ f a else f a ≤ f b)
  | [], _ => List.Pairwise.nil
  | x :: xs, hall => by
    rw [insSortK]
    refine pairwise_insertK_int f key d x (insSortK key d xs)
      (hall x (List.mem_cons_self x xs)) (fun a ha => ?_)
      (pairwise_insSortK_int f key d xs fun a ha => hall a (List.mem_cons_of_mem x ha))
    exact hall a (List.mem_cons_of_mem x ((insSortK_perm key d xs).mem_iff.mp ha))

/-- Integer keys are always mutually comparable. -/
theorem allComparable_int (l : List PyVal) (h : ∀ v ∈ l, ∃ n : Int, v = .pint n) :
    allComparable l = true := by
  simp only [allComparable, List.all_eq_true]
  intro a ha b hb
  obtain ⟨x, rfl⟩ := h a ha
  obtain ⟨y, rfl⟩ := h b hb
  rfl

/-- A key absent from the dict looks up to the default. -/
theorem dictGet_absent (k : String) (default : PyVal) :
    ∀ d : PyDict, dictHasKey d k = false → dictGet d k default = default
  | [], _ => rfl
  | (k', v) :: rest, h => by
    simp only [dictHasKey, Bool.or_eq_false_iff, decide_eq_false_iff_not] at h
    simp [dictGet, h.1, dictGet_absent k default rest h.2]

/-! ## Lemmas about the duration codec -/

theorem digitChar_isDigit (k : Nat) (hk : k < 10) : (Nat.digitChar k).isDigit = true := by
  interval_cases k <;> decide

theorem digitChar_val (k : Nat) (hk : k < 10) : (Nat.digitChar k).toNat - 48 = k := by
  interval_cases k <;> decide

theorem digitsVal_append_singleton (xs : List Char) (c : Char) :
    digitsVal (xs ++ [c]) = digitsVal xs * 10 + (c.toNat - 48) := by
  simp [digitsVal, List.foldl_append]

theorem natDigitsGo_ne_nil : ∀ (fuel n : Nat), 0 < fuel → natDigitsGo fuel n ≠ []
  | 0, _, h => absurd h (by omega)
  | fuel + 1, n, _ => by
    by_cases h : n < 10 <;> simp [natDigitsGo, h]

theorem natDigitsGo_isDigit : ∀ (fuel n : Nat), n < fuel →
    ∀ c ∈ natDigitsGo fuel n, c.isDigit = true
  | 0, _, h, _, _ => absurd h (by omega)
  | fuel + 1, n, hfuel, c, hc => by
    by_cases h : n < 10
    · simp only [natDigitsGo, h, if_true, List.mem_singleton] at hc
      exact hc ▸ digitChar_isDigit n h
    · simp only [natDigitsGo, h, if_false, List.mem_append, List.mem_singleton] at hc
      rcases hc with hc | rfl
      · have hdiv : n / 10 < fuel := by
          have := Nat.div_lt_self (by omega : 0 < n) (by omega : 1 < 10)
          omega
        exact natDigitsGo_isDigit fuel (n / 10) hdiv c hc
      · exact digitChar_isDigit (n % 10) (Nat.mod_lt n (by omega))

theorem digitsVal_natDigitsGo : ∀ (fuel n : Nat), n < fuel →
    digitsVal (natDigitsGo fuel n) = n
  | 0, _, h => absurd h (by omega)
  | fuel + 1, n, hfuel => by
    by_cases h : n < 10
    · have : digitsVal [Nat.digitChar n] = n := by
        simp [digitsVal, digitChar_val n h]
      simp [natDigitsGo, h, this]
    · have hdiv : n / 10 < fuel := by
        have := Nat.div_lt_self (by omega : 0 < n) (by omega : 1 < 10)
        omega
      have ih := digitsVal_natDigitsGo fuel (n / 10) hdiv
      simp only [natDigitsGo, h, if_false]
      rw [digitsVal_append_singleton, ih, digitChar_val (n % 10) (Nat.mod_lt n (by omega))]
      omega

theorem natDigits_ne_nil (n : Nat) : natDigits n ≠ [] :=
  natDigitsGo_ne_nil (n + 1) n (by omega)

theorem natDigits_isDigit (n : Nat) : ∀ c ∈ natDigits n, c.isDigit = true :=
  natDigitsGo_isDigit (n + 1) n (by omega)

theorem digitsVal_natDigits (n : Nat) : digitsVal (natDigits n) = n :=
  digitsVal_natDigitsGo (n + 1) n (by omega)

/-- A digit character differs from any non-digit character. -/
theorem digit_ne (c : Char) (hc : c.isDigit = true) (c' : Char) (hc' : c'.isDigit = false) :
    c ≠ c' := by
  intro he
  rw [he, hc'] at hc
  exact Bool.false_ne_true hc

/-- A regex search for digits-before-`desig` fails when `desig` never occurs. -/
theorem siB_not_mem (desig : Char) :
    ∀ (l run : List Char), desig ∉ l → searchIntBefore desig run l = none
  | [], _, _ => rfl
  | c :: rest, run, h => by
    have hc : ¬ c = desig := fun he => h (he ▸ List.mem_cons_self c rest)
    have hrest : desig ∉ rest := fun hr => h (List.mem_cons_of_mem c hr)
    by_cases hd : c.isDigit <;>
      simp [searchIntBefore, hc, hd, siB_not_mem desig rest _ hrest]

/-- The leftmost-greedy match: scanning digits `ds` followed directly by the
designator yields the open run together with `ds` as the captured group. -/
theorem siB_found (desig : Char) (hnd : desig.isDigit = false) :
    ∀ (ds run rest : List Char), (∀ c ∈ ds, c.isDigit = true) →
      (ds = [] → run ≠ []) →
      searchIntBefore desig run (ds ++ desig :: rest) =
        some (digitsVal (run.reverse ++ ds))
  | [], run, rest, _, hrun => by
    have : ¬ run.isEmpty := by
      cases run with
      | nil => exact absurd rfl (hrun rfl)
      | cons a as => simp [List.isEmpty]
    simp [searchIntBefore, this]
  | d :: ds, run, rest, hds, _ => by
    have hd : d.isDigit = true := hds d (List.mem_cons_self d ds)
    have hne : ¬ d = desig := digit_ne d hd desig hnd
    have ih := siB_found desig hnd ds (d :: run) rest
      (fun c hc => hds c (List.mem_cons_of_mem d hc)) (fun _ => by simp)
    simp only [List.cons_append, searchIntBefore, hne, if_false, hd, if_true, List.append_eq]
    rw [ih]
    simp [List.append_assoc]

/-- Scanning past a digit run closed by a non-digit, non-designator character
resets the search: the match, if any, lies wholly in the tail. -/
theorem siB_skip (desig : Char) (hnd : desig.isDigit = false)
    (c0 : Char) (hc0 : c0 ≠ desig) (hcd : c0.isDigit = false) :
    ∀ (ds run rest : List Char), (∀ c ∈ ds, c.isDigit = true) →
      searchIntBefore desig run (ds ++ c0 :: rest) = searchIntBefore desig [] rest
  | [], run, rest, _ => by
    have : ¬ c0 = desig := hc0
    simp [searchIntBefore, this, hcd]
  | d :: ds, run, rest, hds => by
    have hd : d.isDigit = true := hds d (List.mem_cons_self d ds)
    have hne : ¬ d = desig := digit_ne d hd desig hnd
    have ih := siB_skip desig hnd c0 hc0 hcd ds (d :: run) rest
      (fun c hc => hds c (List.mem_cons_of_mem d hc))
    simp only [List.cons_append, searchIntBefore, hne, if_false, hd, if_true, List.append_eq]
    exact ih

theorem removePT_eq_self : ∀ l : List Char, (∀ c ∈ l, c ≠ 'P') → removePT l = l
  | [], _ => rfl
  | [c], _ => rfl
  | a :: b :: tl, h => by
    have ha : ¬ (a = 'P' ∧ b = 'T') := fun hab => h a (List.mem_cons_self a _) hab.1
    simp only [removePT, ha, if_false]
    rw [removePT_eq_self (b :: tl) (fun c hc => h c (List.mem_cons_of_mem a hc))]

/-- On a string starting with `PT`, `parse_duration` reduces to the three
regex searches over the remainder with the prefix stripped. -/
theorem parse_duration_PT (rest : List Char) :
    parse_duration ⟨'P' :: 'T' :: rest⟩ =
      (searchIntBefore 'H' [] (removePT rest)).getD 0 * 3600 +
      (searchIntBefore 'M' [] (removePT rest)).getD 0 * 60 +
      (searchIntBefore 'S' [] (removePT rest)).getD 0 := by
  have h1 : (⟨'P' :: 'T' :: rest⟩ : String) ≠ "" := by
    intro h
    have h' := congrArg String.data h
    simp at h'
  have h2 : (⟨'P' :: 'T' :: rest⟩ : String) ≠ "N/A" := by
    intro h
    have h' : 'P' :: 'T' :: rest = ['N', '/', 'A'] := congrArg String.data h
    injection h' with hP _
    exact absurd hP (by decide)
  rw [parse_duration, if_neg (by exact fun hor => hor.elim h1 h2)]
  have hPT : removePT ('P' :: 'T' :: rest) = removePT rest := by
    simp [removePT]
  simp only [hPT]

/-- No character of a well-formed token tail (digits and designators) is `'P'`. -/
theorem token_tail_no_P (parts : List Char)
    (h : ∀ c ∈ parts, c.isDigit = true ∨ c = 'H' ∨ c = 'M' ∨ c = 'S') :
    ∀ c ∈ parts, c ≠ 'P' := by
  intro c hc
  rcases h c hc with hd | rfl | rfl | rfl
  · exact digit_ne c hd 'P' (by decide)
  · decide
  · decide
  · decide

theorem parse_mkTokenHMS (h m s : Nat) :
    parse_duration (mkTokenHMS h m s) = h * 3600 + m * 60 + s := by
  rw [mkTokenHMS, parse_duration_PT]
  rw [removePT_eq_self _ (token_tail_no_P _ (by
    intro c hc
    simp only [List.mem_append, List.mem_cons, List.mem_singleton] at hc
    rcases hc with hc | rfl | hc | rfl | hc | rfl | hc
    · exact Or.inl (natDigits_isDigit h c hc)
    · simp
    · exact Or.inl (natDigits_isDigit m c hc)
    · simp
    · exact Or.inl (natDigits_isDigit s c hc)
    · simp
    · exact absurd hc (List.not_mem_nil c)))]
  rw [siB_found 'H' (by decide) (natDigits h) [] _ (natDigits_isDigit h)
    (fun hnil => absurd hnil (natDigits_ne_nil h))]
  rw [siB_skip 'M' (by decide) 'H' (by decide) (by decide) (natDigits h) [] _
    (natDigits_isDigit h)]
  rw [siB_found 'M' (by decide) (natDigits m) [] _ (natDigits_isDigit m)
    (fun hnil => absurd hnil (natDigits_ne_nil m))]
  rw [siB_skip 'S' (by decide) 'H' (by decide) (by decide) (natDigits h) [] _
    (natDigits_isDigit h)]
  rw [siB_skip 'S' (by decide) 'M' (by decide) (by decide) (natDigits m) [] _
    (natDigits_isDigit m)]
  rw [siB_found 'S' (by decide) (natDigits s) [] [] (natDigits_isDigit s)
    (fun hnil => absurd hnil (natDigits_ne_nil s))]
  simp [digitsVal_natDigits]

/-- A designator that is neither a digit nor equal to any character of the
list does not occur in it. -/
theorem not_mem_of_ne (desig : Char) (hnd : desig.isDigit = false) (parts : List Char)
    (h : ∀ c ∈ parts, c.isDigit = true ∨ c ≠ desig) : desig ∉ parts := by
  intro hmem
  rcases h desig hmem with hd | hne
  · rw [hnd] at hd
    exact Bool.false_ne_true hd
  · exact hne rfl

theorem parse_mkTokenMS (m s : Nat) :
    parse_duration (mkTokenMS m s) = m * 60 + s := by
  rw [mkTokenMS, parse_duration_PT]
  rw [removePT_eq_self _ (token_tail_no_P _ (by
    intro c hc
    simp only [List.mem_append, List.mem_cons, List.mem_singleton] at hc
    rcases hc with hc | rfl | hc | rfl | hc
    · exact Or.inl (natDigits_isDigit m c hc)
    · simp
    · exact Or.inl (natDigits_isDigit s c hc)
    · simp
    · exact absurd hc (List.not_mem_nil c)))]
  rw [siB_not_mem 'H' _ [] (not_mem_of_ne 'H' (by decide) _ (by
    intro c hc
    simp only [List.mem_append, List.mem_cons, List.mem_singleton] at hc
    rcases hc with hc | rfl | hc | rfl | hc
    · exact Or.inl (natDigits_isDigit m c hc)
    · exact Or.inr (by decide)
    · exact Or.inl (natDigits_isDigit s c hc)
    · exact Or.inr (by decide)
    · exact absurd hc (List.not_mem_nil c)))]
  rw [siB_found 'M' (by decide) (natDigits m) [] _ (natDigits_isDigit m)
    (fun hnil => absurd hnil (natDigits_ne_nil m))]
  rw [siB_skip 'S' (by decide) 'M' (by decide) (by decide) (natDigits m) [] _
    (natDigits_isDigit m)]
  rw [siB_found 'S' (by decide) (natDigits s) [] [] (natDigits_isDigit s)
    (fun hnil => absurd hnil (natDigits_ne_nil s))]
  simp [digitsVal_natDigits]

theorem parse_mkTokenHS (h s : Nat) :
    parse_duration (mkTokenHS h s) = h * 3600 + s := by
  rw [mkTokenHS, parse_duration_PT]
  rw [removePT_eq_self _ (token_tail_no_P _ (by
    intro c hc
    simp only [List.mem_append, List.mem_cons, List.mem_singleton] at hc
    rcases hc with hc | rfl | hc | rfl | hc
    · exact Or.inl (natDigits_isDigit h c hc)
    · simp
    · exact Or.inl (natDigits_isDigit s c hc)
    · simp
    · exact absurd hc (List.not_mem_nil c)))]
  rw [siB_found 'H' (by decide) (natDigits h) [] _ (natDigits_isDigit h)
    (fun hnil => absurd hnil (natDigits_ne_nil h))]
  rw [siB_not_mem 'M' _ [] (not_mem_of_ne 'M' (by decide) _ (by
    intro c hc
    simp only [List.mem_append, List.mem_cons, List.mem_singleton] at hc
    rcases hc with hc | rfl | hc | rfl | hc
    · exact Or.inl (natDigits_isDigit h c hc)
    · exact Or.inr (by decide)
    · exact Or.inl (natDigits_isDigit s c hc)
    · exact Or.inr (by decide)
    · exact absurd hc (List.not_mem_nil c)))]
  rw [siB_skip 'S' (by decide) 'H' (by decide) (by decide) (natDigits h) [] _
    (natDigits_isDigit h)]
  rw [siB_found 'S' (by decide) (natDigits s) [] [] (natDigits_isDigit s)
    (fun hnil => absurd hnil (natDigits_ne_nil s))]
  simp [digitsVal_natDigits]

theorem parse_mkTokenHM (h m : Nat) :
    parse_duration (mkTokenHM h m) = h * 3600 + m * 60 := by
  rw [mkTokenHM, parse_duration_PT]
  rw [removePT_eq_self _ (token_tail_no_P _ (by
    intro c hc
    simp only [List.mem_append, List.mem_cons, List.mem_singleton] at hc
    rcases hc with hc | rfl | hc | rfl | hc
    · exact Or.inl (natDigits_isDigit h c hc)
    · simp
    · exact Or.inl (natDigits_isDigit m c hc)
    · simp
    · exact absurd hc (List.not_mem_nil c)))]
  rw [siB_found 'H' (by decide) (natDigits h) [] _ (natDigits_isDigit h)
    (fun hnil => absurd hnil (natDigits_ne_nil h))]
  rw [siB_skip 'M' (by decide) 'H' (by decide) (by decide) (natDigits h) [] _
    (natDigits_isDigit h)]
  rw [siB_found 'M' (by decide) (natDigits m) [] [] (natDigits_isDigit m)
    (fun hnil => absurd hnil (natDigits_ne_nil m))]
  rw [siB_not_mem 'S' _ [] (not_mem_of_ne 'S' (by decide) _ (by
    intro c hc
    simp only [List.mem_append, List.mem_cons, List.mem_singleton] at hc
    rcases hc with hc | rfl | hc | rfl | hc
    · exact Or.inl (natDigits_isDigit h c hc)
    · exact Or.inr (by decide)
    · exact Or.inl (natDigits_isDigit m c hc)
    · exact Or.inr (by decide)
    · exact absurd hc (List.not_mem_nil c)))]
  simp [digitsVal_natDigits]

theorem parse_mkTokenS (s : Nat) :
    parse_duration (mkTokenS s) = s := by
  rw [mkTokenS, parse_duration_PT]
  rw [removePT_eq_self _ (token_tail_no_P _ (by
    intro c hc
    simp only [List.mem_append, List.mem_cons, List.mem_singleton] at hc
    rcases hc with hc | rfl | hc
    · exact Or.inl (natDigits_isDigit s c hc)
    · simp
    · exact absurd hc (List.not_mem_nil c)))]
  rw [siB_not_mem 'H' _ [] (not_mem_of_ne 'H' (by decide) _ (by
    intro c hc
    simp only [List.mem_append, List.mem_cons, List.mem_singleton] at hc
    rcases hc with hc | rfl | hc
    · exact Or.inl (natDigits_isDigit s c hc)
    · exact Or.inr (by decide)
    · exact absurd hc (List.not_mem_nil c)))]
  rw [siB_not_mem 'M' _ [] (not_mem_of_ne 'M' (by decide) _ (by
    intro c hc
    simp only [List.mem_append, List.mem_cons, List.mem_singleton] at hc
    rcases hc with hc | rfl | hc
    · exact Or.inl (natDigits_isDigit s c hc)
    · exact Or.inr (by decide)
    · exact absurd hc (List.not_mem_nil c)))]
  rw [siB_found 'S' (by decide) (natDigits s) [] [] (natDigits_isDigit s)
    (fun hnil => absurd hnil (natDigits_ne_nil s))]
  simp [digitsVal_natDigits]

/-! ## Lemmas about the detail batcher and the pagination accumulator -/

theorem chunksGo_join : ∀ (fuel : Nat) (l : List α), l.length ≤ fuel →
    (chunksGo fuel l).flatten = l
  | 0, l, h => by
    have : l = [] := List.eq_nil_of_length_eq_zero (by omega)
    subst this
    rfl
  | fuel + 1, [], _ => rfl
  | fuel + 1, x :: rest, h => by
    have hlen : ((x :: rest).drop 50).length ≤ fuel := by
      rw [List.length_drop]
      simp only [List.length_cons] at h ⊢
      omega
    simp only [chunksGo, List.flatten_cons]
    rw [chunksGo_join fuel _ hlen, List.take_append_drop]

theorem chunks50_join (l : List α) : (chunks50 l).flatten = l :=
  chunksGo_join l.length l (Nat.le_refl _)

theorem chunksGo_le : ∀ (fuel : Nat) (l : List α), ∀ b ∈ chunksGo fuel l, b.length ≤ 50
  | 0, _, b, hb => by simp [chunksGo] at hb
  | fuel + 1, [], b, hb => by simp [chunksGo] at hb
  | fuel + 1, x :: rest, b, hb => by
    simp only [chunksGo, List.mem_cons] at hb
    rcases hb with rfl | hb
    · simp [List.length_take_le]
    · exact chunksGo_le fuel _ b hb

theorem chunks50_le (l : List α) : ∀ b ∈ chunks50 l, b.length ≤ 50 :=
  chunksGo_le l.length l

/-- The issued identifier batches are exactly the chunks, failures included. -/
theorem fetchStatsGo_calls (g : List String → Option (List α)) :
    ∀ batches : List (List Stub),
      (fetchStatsGo g batches).2 = batches.map (fun b => b.map Stub.videoId)
  | [] => rfl
  | b :: bs => by
    simp only [fetchStatsGo, List.map_cons]
    cases g (b.map Stub.videoId) <;> simp [fetchStatsGo_calls g bs]

/-- The enriched output is the concatenation, in batch order, of exactly the
successful batches' items. -/
theorem fetchStatsGo_items (g : List String → Option (List α)) :
    ∀ batches : List (List Stub),
      (fetchStatsGo g batches).1 =
        (batches.filterMap (fun b => g (b.map Stub.videoId))).flatten
  | [] => rfl
  | b :: bs => by
    simp only [fetchStatsGo, List.filterMap_cons]
    cases hg : g (b.map Stub.videoId) <;>
      simp [fetchStatsGo_items g bs, hg]

/-- Whatever the page fetches do, the accumulator only ever appends: the items
present before any iteration survive to the final result, in order. -/
theorem search_acc_prefix (fetch : String → Int → Option String → FetchResult α)
    (keywords : List String) (mx : Int) :
    ∀ (fuel : Nat) (acc : List α) (tok : Option String),
      ∃ rest, (search_videos_with_keywords fetch keywords mx fuel acc tok).1 = acc ++ rest
  | 0, acc, tok => ⟨[], by simp [search_videos_with_keywords]⟩
  | fuel + 1, acc, tok => by
    by_cases h : (acc.length : Int) < mx
    · cases hf : fetch (String.intercalate " " keywords) (min 50 (mx - acc.length)) tok with
      | err => exact ⟨[], by simp [search_videos_with_keywords, h, hf]⟩
      | ok items tok' =>
        cases tok' with
        | none => exact ⟨items, by simp [search_videos_with_keywords, h, hf]⟩
        | some t =>
          obtain ⟨rest, hrest⟩ :=
            search_acc_prefix fetch keywords mx fuel (acc ++ items) (some t)
          exact ⟨items ++ rest, by
            simp [search_videos_with_keywords, h, hf, hrest, List.append_assoc]⟩
    · exact ⟨[], by simp [search_videos_with_keywords, h]⟩

/-- The `'view_count'` key of a record's dict form is its view count. -/
theorem recordKey_view (r : Record) :
    dictGet (recordToDict r) "view_count" (.pint 0) = .pint r.view_count := rfl

/-- Sorting records by `'view_count'` never raises: the sort succeeds with the
stable insertion sort on the integer view counts. -/
theorem sortRecords_view (rs : List Record) :
    sortRecords rs "view_count" true =
      some (insSortK (fun r => dictGet (recordToDict r) "view_count" (.pint 0)) true rs) := by
  rw [sortRecords, pySortByKey, if_pos]
  apply allComparable_int
  intro v hv
  simp only [List.mem_map] at hv
  obtain ⟨r, _, rfl⟩ := hv
  exact ⟨r.view_count, rfl⟩

/-! ## The claims -/

/-- C2: the pagination accumulator requests each page with size
`min(50, target - already_fetched)` carrying the continuation token forward
(visible in the request log), returns the accumulated prefix untouched when a
fetch fails, stops issuing requests once the accumulated count reaches the
target, only ever appends to the accumulated items, and on the concrete
50-with-token / 30-without-token scenario with target 100 returns exactly the
80 stubs in API order after exactly two calls. -/
theorem c2_pagination_accumulator :
    (∀ (α : Type) (fetch : String → Int → Option String → FetchResult α)
        (keywords : List String) (mx : Int) (fuel : Nat) (acc : List α) (tok : Option String),
      ((acc.length : Int) < mx →
        fetch (String.intercalate " " keywords) (min 50 (mx - acc.length)) tok = .err →
        search_videos_with_keywords fetch keywords mx (fuel + 1) acc tok
          = (acc, [(min 50 (mx - acc.length), tok)]))
      ∧ (mx ≤ (acc.length : Int) →
          search_videos_with_keywords fetch keywords mx fuel acc tok = (acc, []))
      ∧ (∃ rest, (search_videos_with_keywords fetch keywords mx fuel acc tok).1 = acc ++ rest))
    ∧ search_videos_with_keywords pagesFetch ["k"] 100 10 [] none
        = (List.replicate 50 0 ++ List.replicate 30 1, [(50, none), (50, some "T1")]) := by
  refine ⟨fun α fetch keywords mx fuel acc tok =>
    ⟨?_, ?_, search_acc_prefix fetch keywords mx fuel acc tok⟩, rfl⟩
  · intro h hf
    simp [search_videos_with_keywords, h, hf]
  · intro h
    cases fuel with
    | zero => rfl
    | succ n =>
      have : ¬ ((acc.length : Int) < mx) := by omega
      simp [search_videos_with_keywords, this]

/-- C2 witness: the failure clause applied to an always-failing fetcher with
target 100 from an empty accumulator. -/
theorem c2_witness :
    search_videos_with_keywords (fun _ _ _ => FetchResult.err (α := Nat)) ["k"] 100 1 [] none
      = ([], [(50, none)]) :=
  (c2_pagination_accumulator.1 Nat (fun _ _ _ => FetchResult.err) ["k"] 100 0 [] none).1
    (by simp) rfl

/-- C3: parsing the token `PT{h}H{m}M{s}S` yields `h*3600 + m*60 + s` for all
non-negative `h`, `m`, `s`; each component defaults to `0` when its designator
is absent; empty and `'N/A'` input yield `0`. -/
theorem c3_parse_duration :
    (∀ h m s : Nat, parse_duration (mkTokenHMS h m s) = h * 3600 + m * 60 + s)
    ∧ (∀ m s : Nat, parse_duration (mkTokenMS m s) = m * 60 + s)
    ∧ (∀ h s : Nat, parse_duration (mkTokenHS h s) = h * 3600 + s)
    ∧ (∀ h m : Nat, parse_duration (mkTokenHM h m) = h * 3600 + m * 60)
    ∧ (∀ s : Nat, parse_duration (mkTokenS s) = s)
    ∧ parse_duration "" = 0 ∧ parse_duration "N/A" = 0 :=
  ⟨parse_mkTokenHMS, parse_mkTokenMS, parse_mkTokenHS, parse_mkTokenHM, parse_mkTokenS,
   rfl, rfl⟩

/-- C4: the duration classifier maps `0` to Unknown, `(0,60]` to Short,
`(60,240]` to Short Video, `(240,600]` to Medium Video, `(600,1200]` to Long
Video and everything larger to Very Long Video, upper bounds inclusive. -/
theorem c4_classification_bands (s : Nat) :
    (s = 0 → get_video_type s = "Unknown")
    ∧ (0 < s → s ≤ 60 → get_video_type s = "Short")
    ∧ (60 < s → s ≤ 240 → get_video_type s = "Short Video")
    ∧ (240 < s → s ≤ 600 → get_video_type s = "Medium Video")
    ∧ (600 < s → s ≤ 1200 → get_video_type s = "Long Video")
    ∧ (1200 < s → get_video_type s = "Very Long Video") := by
  refine ⟨?_, ?_, ?_, ?_, ?_, ?_⟩ <;> intros <;> unfold get_video_type <;>
    (repeat' split) <;> first | rfl | omega

/-- C4 witness: the classifier evaluated on the spec's boundary vector. -/
theorem c4_witness :
    get_video_type 0 = "Unknown" ∧ get_video_type 60 = "Short"
    ∧ get_video_type 61 = "Short Video" ∧ get_video_type 240 = "Short Video"
    ∧ get_video_type 241 = "Medium Video" ∧ get_video_type 1200 = "Long Video"
    ∧ get_video_type 1201 = "Very Long Video" :=
  ⟨(c4_classification_bands 0).1 rfl,
   (c4_classification_bands 60).2.1 (by omega) (by omega),
   (c4_classification_bands 61).2.2.1 (by omega) (by omega),
   (c4_classification_bands 240).2.2.1 (by omega) (by omega),
   (c4_classification_bands 241).2.2.2.1 (by omega) (by omega),
   (c4_classification_bands 1200).2.2.2.2.1 (by omega) (by omega),
   (c4_classification_bands 1201).2.2.2.2.2 (by omega)⟩

/-- C7: the detail batcher issues exactly the consecutive chunks of at most 50
identifiers, in order, failures included; its output is the concatenation, in
batch order, of the successful batches' items (so a failed batch is skipped
and the others survive); the chunks partition the input; 120 identifiers give
batch sizes 50, 50, 20, and failing exactly the middle batch preserves the 70
items of the other two. -/
theorem c7_detail_batcher :
    (∀ (β : Type) (g : List String → Option (List β)) (items : List Stub),
      (fetch_video_statistics g items).2 = (chunks50 items).map (fun b => b.map Stub.videoId)
      ∧ (fetch_video_statistics g items).1
          = ((chunks50 items).filterMap (fun b => g (b.map Stub.videoId))).flatten
      ∧ (chunks50 items).flatten = items
      ∧ (∀ b ∈ chunks50 items, b.length ≤ 50))
    ∧ (fetch_video_statistics (fun ids => some ids) stubs120).2.map List.length
        = [50, 50, 20]
    ∧ (fetch_video_statistics
        (fun ids => if ids.head? = some "50" then none else some ids) stubs120).1
        = ((List.range 120).map toString).take 50 ++ ((List.range 120).map toString).drop 100 := by
  exact ⟨fun β g items =>
    ⟨fetchStatsGo_calls g _, fetchStatsGo_items g _, chunks50_join items, chunks50_le items⟩,
   rfl, rfl⟩

/-- C7 witness: the partition property applied to the 120-identifier input. -/
theorem c7_witness : (chunks50 stubs120).flatten = stubs120 :=
  (c7_detail_batcher.1 String (fun ids => some ids) stubs120).2.2.1

/-- C9 counterexample: invoked with the nonsensical negative target `-5`, the
accumulator does not raise any error — it returns normally with the empty
result and an empty request log (no fetch was even attempted), silently
absorbing the precondition violation. -/
theorem c9_counterexample :
    search_videos_with_keywords pagesFetch ["k"] (-5) 10 [] none = ([], []) := rfl

/-- C9 (amended): a non-positive target result count is silently absorbed:
for any fetch capability the loop condition is immediately false, no request
is issued, no error is raised, and the empty list is returned. -/
theorem c9_negative_target_silent (α : Type)
    (fetch : String → Int → Option String → FetchResult α)
    (keywords : List String) (mx : Int) (fuel : Nat) (hmx : mx ≤ 0) :
    search_videos_with_keywords fetch keywords mx fuel [] none = ([], []) := by
  cases fuel with
  | zero => rfl
  | succ n =>
    have h0 : ¬ ((0 : Int) < mx) := by omega
    simp [search_videos_with_keywords, h0]

/-- C9 witness: the amended behavior at target `-1` with the scenario fetcher. -/
theorem c9_witness :
    search_videos_with_keywords pagesFetch ["kw"] (-1) 3 [] none = ([], []) :=
  c9_negative_target_silent Nat pagesFetch ["kw"] (-1) 3 (by omega)

/-- C1 counterexample: a raw item whose statistics are present but whose view
count is the non-numeric string `"abc"` makes the normalizer raise
(`int('abc')` is a `ValueError`), so non-numeric counts are not treated as 0. -/
theorem c1_counterexample :
    extract_video_info ⟨some "vid1", none, some ⟨some "abc", none, none⟩, none⟩ = none := rfl

/-- C1 (amended): the normalizer returns exactly one record whenever each of
the three count fields is absent or a numeric string (absent counts coerce to
`int(0) = 0`); and normalizing a raw item missing every optional section gives
a record whose numeric fields are all `0`, whose snippet-derived string fields
are all empty, with category Unknown and `is_short = false` — while `video_id`
is `None` (not an empty string), the tags and thumbnail display fields hold
the placeholders `'No tags'` and `'No thumbnail'`, the duration display is
`'0:00'` and the url interpolates the `None` identifier. -/
theorem c1_normalizer_amended :
    (∀ video : RawItem,
      (pyIntOfField (video.statistics.getD ⟨none, none, none⟩).viewCount).isSome = true →
      (pyIntOfField (video.statistics.getD ⟨none, none, none⟩).likeCount).isSome = true →
      (pyIntOfField (video.statistics.getD ⟨none, none, none⟩).commentCount).isSome = true →
      (extract_video_info video).isSome = true)
    ∧ extract_video_info ⟨none, none, none, none⟩ = some
        { video_id := none, title := "", channel := "", channel_id := "", published_at := "",
          description := "", description_short := "", view_count := 0, like_count := 0,
          comment_count := 0, duration := "0:00", duration_seconds := 0, is_short := false,
          video_type := "Unknown", tags := "No tags", tags_list := [],
          thumbnail_url := "No thumbnail", thumbnail_object := ("", 0, 0),
          url := "https://www.youtube.com/watch?v=None" } := by
  constructor
  · intro video h1 h2 h3
    obtain ⟨a, ha⟩ := Option.isSome_iff_exists.mp h1
    obtain ⟨b, hb⟩ := Option.isSome_iff_exists.mp h2
    obtain ⟨c, hc⟩ := Option.isSome_iff_exists.mp h3
    simp [extract_video_info, ha, hb, hc]
  · rfl

/-- C1 witness: the totality clause applied to a raw item with one numeric and
two absent counts. -/
theorem c1_witness :
    (extract_video_info ⟨some "v", none, some ⟨some "12", none, none⟩, none⟩).isSome = true :=
  c1_normalizer_amended.1 ⟨some "v", none, some ⟨some "12", none, none⟩, none⟩
    (by decide) (by decide) (by decide)

/-- C5 counterexample: a record missing the sort field does not sort as the
field type's zero value — with sort field `'title'`, a record having the
string title `"a"` next to a record missing the key makes the key set
`{'a', 0}` mixed-type, and the engine raises `TypeError` (`none`) instead of
sorting. -/
theorem c5_counterexample :
    sort_videos [[("title", PyVal.pstr "a")], []] "title" true = none := rfl

/-- C5 (amended): `sort_videos` keys every record by `x.get(sort_by, 0)`, the
integer `0` (not the field type's zero) when the field is missing or unknown.
Whenever the sort succeeds — all keys mutually comparable, of whatever type —
the output is a permutation of the input in which records with equal keys
retain their input order (stability). When all keys are integers the sort is
guaranteed to succeed, sorted on the keys; in particular a sort field absent
from every record (an unknown field name) never raises and returns the input
unchanged. A missing field mixed with string-keyed records raises instead
(see the counterexample). -/
theorem c5_sort_stable_zero_default (videos : List PyDict) (field : String) (d : Bool) :
    (∀ out, sort_videos videos field d = some out →
      out.Perm videos
      ∧ (∀ k : PyVal, out.filter (fun v => decide (dictGet v field (.pint 0) = k))
          = videos.filter (fun v => decide (dictGet v field (.pint 0) = k))))
    ∧ ((∀ v ∈ videos, ∃ n : Int, dictGet v field (.pint 0) = .pint n) →
        ∃ out, sort_videos videos field d = some out
          ∧ out.Pairwise (fun a b =>
              if d then pyToInt (dictGet b field (.pint 0)) ≤ pyToInt (dictGet a field (.pint 0))
              else pyToInt (dictGet a field (.pint 0)) ≤ pyToInt (dictGet b field (.pint 0))))
    ∧ ((∀ v ∈ videos, dictHasKey v field = false) →
        sort_videos videos field d = some videos) := by
  have hshape : ∀ out, sort_videos videos field d = some out →
      out = insSortK (fun v => dictGet v field (.pint 0)) d videos := by
    intro out hout
    rw [sort_videos, pySortByKey] at hout
    by_cases hc : allComparable (videos.map fun v => dictGet v field (.pint 0)) = true
    · rw [if_pos hc] at hout
      exact (Option.some.inj hout).symm
    · rw [if_neg hc] at hout
      simp at hout
  have hstable : ∀ out, sort_videos videos field d = some out →
      out.Perm videos
      ∧ (∀ k : PyVal, out.filter (fun v => decide (dictGet v field (.pint 0) = k))
          = videos.filter (fun v => decide (dictGet v field (.pint 0) = k))) := by
    intro out hout
    rw [hshape out hout]
    exact ⟨insSortK_perm _ _ _, fun k => filter_insSortK _ _ _ _⟩
  have hB : (∀ v ∈ videos, ∃ n : Int, dictGet v field (.pint 0) = .pint n) →
      ∃ out, sort_videos videos field d = some out
        ∧ out.Pairwise (fun a b =>
            if d then pyToInt (dictGet b field (.pint 0)) ≤ pyToInt (dictGet a field (.pint 0))
            else pyToInt (dictGet a field (.pint 0)) ≤ pyToInt (dictGet b field (.pint 0))) := by
    intro hint
    have hcomp : allComparable (videos.map fun v => dictGet v field (.pint 0)) = true := by
      apply allComparable_int
      intro v hv
      simp only [List.mem_map] at hv
      obtain ⟨r, hr, rfl⟩ := hv
      exact hint r hr
    refine ⟨insSortK (fun v => dictGet v field (.pint 0)) d videos, ?_, ?_⟩
    · rw [sort_videos, pySortByKey, if_pos hcomp]
    · exact pairwise_insSortK_int (fun v => pyToInt (dictGet v field (.pint 0)))
        (fun v => dictGet v field (.pint 0)) d videos
        (fun a ha => by
          obtain ⟨n, hn⟩ := hint a ha
          show dictGet a field (.pint 0) = .pint (pyToInt (dictGet a field (.pint 0)))
          rw [hn]
          rfl)
  refine ⟨hstable, hB, ?_⟩
  intro habs
  obtain ⟨out, hout, -⟩ :=
    hB (fun v hv => ⟨0, dictGet_absent field (.pint 0) v (habs v hv)⟩)
  obtain ⟨hperm, hfilt⟩ := hstable out hout
  have h1 : out.filter (fun v => decide (dictGet v field (.pint 0) = .pint 0)) = out :=
    List.filter_eq_self.mpr fun a ha => by
      rw [dictGet_absent field (.pint 0) a (habs a (hperm.mem_iff.mp ha))]
      simp
  have h2 : videos.filter (fun v => decide (dictGet v field (.pint 0) = .pint 0)) = videos :=
    List.filter_eq_self.mpr fun a ha => by
      rw [dictGet_absent field (.pint 0) a (habs a ha)]
      simp
  have h3 := hfilt (.pint 0)
  rw [h1, h2] at h3
  rw [hout, h3]

/-- C5 witness: an unknown sort field leaves the input untouched, raising
nothing. -/
theorem c5_witness :
    sort_videos [[("view_count", PyVal.pint 3)]] "missing_field" true
      = some [[("view_count", PyVal.pint 3)]] :=
  (c5_sort_stable_zero_default [[("view_count", PyVal.pint 3)]] "missing_field" true).2.2
    (by decide)

/-- C6: the batch pipeline (normalize, view filter, optional keyword filter,
sort by view count descending) only returns records meeting the view
threshold, sorted descending on view count; on the scenario with view counts
5000/20000/15000 and threshold 10000 (no keywords) it returns exactly the two
qualifying records in the order 20000, 15000. -/
theorem c6_batch_pipeline :
    (∀ (raw : List RawItem) (mv : Int) (out : List Record),
      process_video_batch raw mv none = some out →
        (∀ r ∈ out, mv ≤ r.view_count)
        ∧ out.Pairwise (fun a b => b.view_count ≤ a.view_count))
    ∧ (process_video_batch pipelineRaw 10000 none).map (fun l => l.map Record.view_count)
        = some [20000, 15000]
    ∧ (process_video_batch pipelineRaw 10000 none).map (fun l => l.map Record.video_id)
        = some [some "b", some "c"] := by
  refine ⟨?_, rfl, rfl⟩
  intro raw mv out hout
  rw [process_video_batch] at hout
  cases hmap : raw.mapM extract_video_info with
  | none =>
    rw [hmap] at hout
    simp at hout
  | some recs =>
    rw [hmap] at hout
    simp only [Option.bind_eq_bind, Option.some_bind] at hout
    rw [sortRecords_view] at hout
    have hbody := Option.some.inj hout
    subst hbody
    constructor
    · intro r hr
      have hmem : r ∈ filter_by_views recs mv :=
        (insSortK_perm (fun r => dictGet (recordToDict r) "view_count" (.pint 0)) true
          (filter_by_views recs mv)).mem_iff.mp hr
      have := (List.mem_filter.mp hmem).2
      exact of_decide_eq_true this
    · have hpw := pairwise_insSortK_int (fun r : Record => r.view_count)
        (fun r => dictGet (recordToDict r) "view_count" (.pint 0)) true
        (filter_by_views recs mv) (fun a _ => recordKey_view a)
      simpa using hpw

/-- C6 witness: the sortedness clause applied to the scenario output. -/
theorem c6_witness :
    ((process_video_batch pipelineRaw 10000 none).getD []).Pairwise
      (fun a b => b.view_count ≤ a.view_count) :=
  (c6_batch_pipeline.1 pipelineRaw 10000
    ((process_video_batch pipelineRaw 10000 none).getD []) rfl).2

/-- C8: the keyword filter keeps a record exactly when some keyword occurs as
a substring of its title, both sides lowercased when `case_sensitive` is
false; title `"Space Exploration Today"` matches `["space"]`
case-insensitively and `["Space"]` case-sensitively, while the lowercase
title `"space exploration"` does not match `["Space"]` case-sensitively. -/
theorem c8_keyword_filter :
    (∀ (videos : List Record) (keywords : List String) (cs : Bool) (v : Record),
      v ∈ filter_by_keywords_in_title videos keywords cs ↔
        v ∈ videos ∧ ∃ k ∈ keywords,
          strIn (if cs then k else lowerStr k) (if cs then v.title else lowerStr v.title) = true)
    ∧ filter_by_keywords_in_title [recTitled "Space Exploration Today"] ["space"] false
        = [recTitled "Space Exploration Today"]
    ∧ filter_by_keywords_in_title [recTitled "Space Exploration Today"] ["Space"] true
        = [recTitled "Space Exploration Today"]
    ∧ filter_by_keywords_in_title [recTitled "space exploration"] ["Space"] true = [] := by
  refine ⟨?_, rfl, rfl, rfl⟩
  intro videos keywords cs v
  rw [filter_by_keywords_in_title, List.mem_filter]
  apply and_congr_right
  intro _
  cases cs
  · simp only [if_false, Bool.false_eq_true, List.any_eq_true]
    constructor
    · rintro ⟨k', hk', hs⟩
      obtain ⟨k, hk, rfl⟩ := List.mem_map.mp hk'
      exact ⟨k, hk, hs⟩
    · rintro ⟨k, hk, hs⟩
      exact ⟨lowerStr k, List.mem_map.mpr ⟨k, hk, rfl⟩, hs⟩
  · simp only [if_true, List.any_eq_true]

/-- C8 witness: the membership characterization applied to the
case-insensitive scenario. -/
theorem c8_witness :
    recTitled "Space Exploration Today" ∈
      filter_by_keywords_in_title [recTitled "Space Exploration Today"] ["space"] false :=
  (c8_keyword_filter.1 [recTitled "Space Exploration Today"] ["space"] false
    (recTitled "Space Exploration Today")).mpr
    ⟨List.mem_singleton.mpr rfl, "space", List.mem_singleton.mpr rfl, rfl⟩

/-- C10: with an empty keyword list the two entry points disagree: the keyword
filter itself keeps nothing (no keyword can match), while the batch pipeline
treats the empty list as falsy and skips keyword filtering entirely, behaving
exactly like the no-keywords call. -/
theorem c10_empty_keywords_divergence :
    (∀ (videos : List Record) (cs : Bool), filter_by_keywords_in_title videos [] cs = [])
    ∧ (∀ (raw : List RawItem) (mv : Int),
        process_video_batch raw mv (some []) = process_video_batch raw mv none) := by
  constructor
  · intro videos cs
    cases cs <;> simp [filter_by_keywords_in_title]
  · intro raw mv
    rfl
